import Mathlib

/-!
Verification of the HEVC GOP cache (`media/cache/hevccache.go`).

The cache classifies incoming RTP transport packets (HEVC payloads) to
detect parameter-set units (VPS/SPS/PPS) and keyframe-class slices,
maintains the latest parameter-set packets and the latest GOP, and can
replay that state into a subscriber queue.

Shallow embedding choices:
* Go byte slices become `List Nat` (each element a byte value `< 256`;
  all bit operations are written so they agree with Go on byte values).
* Go slice indexing becomes `List.getElem?`; an out-of-range index,
  which panics in Go, is modelled as propagating `Option.none`.
* The `sync.RWMutex` is dropped: all operations are modelled as pure
  state transformers (the lock only serializes them).
* `queue.Queue` / `queue.SyncQueue` (external collaborators) are
  modelled as Lean lists; `Push` appends one element, `PushN` appends
  a list of elements.
-/

namespace HevcCacheSpec

/-- Modelled from the spec: the HEVC NAL-unit type taxonomy consumed from
the repository's `av/codec/hevc` package (not part of the provided source
tree).  The spec describes the keyframe-class slice types as one contiguous
closed range (BLA through CRA), the three parameter-set types as distinct
single values outside that range, and two RTP wrapper types (aggregation
and fragmentation); the numeric codes are the standard H.265 / RFC 7798
values. -/
def NalBlaWLp : Nat := 16

/-- Modelled from the spec: last keyframe-class slice type (CRA). -/
def NalCraNut : Nat := 21

/-- Modelled from the spec: video parameter set type code. -/
def NalVps : Nat := 32

/-- Modelled from the spec: sequence parameter set type code. -/
def NalSps : Nat := 33

/-- Modelled from the spec: picture parameter set type code. -/
def NalPps : Nat := 34

/-- Modelled from the spec: RTP aggregation-packet (AP) wrapper type code. -/
def NalStapInRtp : Nat := 48

/-- Modelled from the spec: RTP fragmentation-unit (FU) wrapper type code. -/
def NalFuInRtp : Nat := 49

/-- Modelled from the spec: the RTP channel tag distinguishing video
packets from other media (from the repository's `av/format/rtp` package,
not part of the provided source tree); only equality with it matters. -/
def ChannelVideo : Nat := 0

/-- Modelled from the spec: the transport packet abstraction
(`rtp.Packet`): an opaque unit exposing a logical channel tag, a payload
byte sequence, and a byte size. -/
structure Packet where
  channel : Nat
  payload : List Nat
  size : Nat
deriving DecidableEq, Repr

/-- The four classification flags produced by `getPalyloadType`
(`vps, sps, pps, islice` named results in the Go source). -/
structure Flags where
  vps : Bool
  sps : Bool
  pps : Bool
  islice : Bool
deriving DecidableEq, Repr

/-- All four classification flags false ("nothing detected"). -/
def Flags.none : Flags := ⟨false, false, false, false⟩

/-- Source method `HevcCache.nalType`: classifies one NAL-unit type value into the four
flags.  Keyframe-class types (the closed range BLA..CRA) set `islice`;
otherwise the three parameter-set codes set their flag; any other type
changes nothing. -/
def nalType (t : Nat) (f : Flags) : Flags :=
  if NalBlaWLp ≤ t ∧ t ≤ NalCraNut then
    { f with islice := true }
  else if t = NalVps then
    { f with vps := true }
  else if t = NalSps then
    { f with sps := true }
  else if t = NalPps then
    { f with pps := true }
  else
    f

/-- The aggregation-packet scan loop inside `getPalyloadType`
(`case hevc.NalStapInRtp`).  Starting at offset `off` (2 for the first
unit, past the aggregation header), it reads a 2-byte big-endian length,
stops successfully on a zero length, reads the NAL type from the byte
after the length prefix, classifies it, advances past the unit, and stops
when the offset reaches the end.  Any out-of-range byte read (a Go index
panic) yields `Option.none`. -/
def apScan (payload : List Nat) (off : Nat) (f : Flags) : Option Flags :=
  match payload[off]?, payload[off+1]? with
  | some hi, some lo =>
    let nalSize := hi * 256 + lo
    if nalSize < 1 then some f
    else
      match payload[off+2]? with
      | some tb =>
        let f' := nalType ((tb / 2) % 64) f
        if off + 2 + nalSize ≥ payload.length then some f'
        else apScan payload (off + 2 + nalSize) f'
      | Option.none => Option.none
  | _, _ => Option.none
termination_by payload.length - off
decreasing_by
  simp_wf
  omega

/-- Source method `HevcCache.getPalyloadType`: classifies a packet payload.  Payloads
shorter than 3 bytes classify as nothing.  Otherwise the NAL type is bits
1–6 of the first byte: an aggregation packet is scanned unit by unit; a
fragmentation unit is classified from its FU header (low 6 bits of byte 2)
only when the start flag (bit 7 of byte 2) is set; any other type is
classified directly.  (The Go receiver is unused, so this is a plain
function.) -/
def getPalyloadType (payload : List Nat) : Option Flags :=
  match payload with
  | b0 :: _ :: b2 :: _ =>
    let naluType := (b0 / 2) % 64
    if naluType = NalStapInRtp then
      apScan payload 2 Flags.none
    else if naluType = NalFuInRtp then
      if (b2 / 128) % 2 = 1 then some (nalType (b2 % 64) Flags.none)
      else some Flags.none
    else some (nalType naluType Flags.none)
  | _ => some Flags.none

/-- Source struct `HevcCache`: GOP-cache state (the `sync.RWMutex` field is dropped;
`queue.Queue` is a Lean list). -/
structure HevcCache where
  cacheGop : Bool
  gop : List Packet
  vps : Option Packet
  sps : Option Packet
  pps : Option Packet
deriving DecidableEq, Repr

/-- Source constructor `NewHevcCache`: fresh cache with the GOP-caching toggle. -/
def NewHevcCache (cacheGop : Bool) : HevcCache :=
  { cacheGop := cacheGop,
    gop := [],
    vps := Option.none,
    sps := Option.none,
    pps := Option.none }

/-- Source method `HevcCache.CachePack` (Ingest): non-video packets are inert and return
false.  Otherwise the payload is classified; a VPS/SPS/PPS flag stores the
packet in that slot (in that precedence order) and returns false; else,
with GOP caching enabled, a keyframe resets the GOP buffer to that single
packet and a non-keyframe is appended only to a non-empty buffer; the
keyframe flag is returned.  `Option.none` models a classification panic. -/
def CachePack (cache : HevcCache) (pack : Packet) : Option (HevcCache × Bool) :=
  if pack.channel ≠ ChannelVideo then some (cache, false)
  else
    match getPalyloadType pack.payload with
    | Option.none => Option.none
    | some f =>
      if f.vps then some ({ cache with vps := some pack }, false)
      else if f.sps then some ({ cache with sps := some pack }, false)
      else if f.pps then some ({ cache with pps := some pack }, false)
      else if cache.cacheGop then
        if f.islice then some ({ cache with gop := [pack] }, f.islice)
        else if cache.gop.length > 0 then
          some ({ cache with gop := cache.gop ++ [pack] }, f.islice)
        else some (cache, f.islice)
      else some (cache, f.islice)

/-- Source method `HevcCache.Reset`: clears the three parameter-set slots and empties
the GOP buffer (the toggle is construction-time and survives). -/
def Reset (cache : HevcCache) : HevcCache :=
  { cache with
    vps := Option.none,
    sps := Option.none,
    pps := Option.none,
    gop := [] }

/-- Source method `HevcCache.PushTo` (Replay): appends to the destination queue `q`, in
order, the cached VPS, SPS and PPS packets when present, then — if GOP
caching is enabled — the whole GOP buffer, and returns the new queue
together with the total size pushed. -/
def PushTo (cache : HevcCache) (q : List Packet) : List Packet × Nat :=
  let bytes := 0
  let (q, bytes) :=
    match cache.vps with
    | some p => (q ++ [p], bytes + p.size)
    | Option.none => (q, bytes)
  let (q, bytes) :=
    match cache.sps with
    | some p => (q ++ [p], bytes + p.size)
    | Option.none => (q, bytes)
  let (q, bytes) :=
    match cache.pps with
    | some p => (q ++ [p], bytes + p.size)
    | Option.none => (q, bytes)
  let (q, bytes) :=
    if cache.cacheGop then
      (q ++ cache.gop, bytes + (cache.gop.map Packet.size).sum)
    else (q, bytes)
  (q, bytes)

/-- One externally driven cache operation: an `Ingest` of a packet or a
`Reset`. -/
inductive Step where
  | ingest (p : Packet)
  | reset
deriving DecidableEq, Repr

/-- Run a sequence of operations from a state; `Option.none` when some
ingest hits a classification panic. -/
def runSteps (c : HevcCache) : List Step → Option HevcCache
  | [] => some c
  | Step.ingest p :: rest =>
    match CachePack c p with
    | some (c', _) => runSteps c' rest
    | Option.none => Option.none
  | Step.reset :: rest => runSteps (Reset c) rest

end HevcCacheSpec

namespace HevcCacheSpec

/-! ### Helper lemmas -/

/-- Record-updating the GOP buffer with its own value is the identity. -/
lemma set_gop_self (c : HevcCache) : { c with gop := c.gop } = c := rfl

/-- Classification of a payload whose leading NAL type is neither the
aggregation nor the fragmentation wrapper. -/
lemma getPalyloadType_default (b0 b1 b2 : Nat) (rest : List Nat)
    (h48 : (b0 / 2) % 64 ≠ NalStapInRtp) (h49 : (b0 / 2) % 64 ≠ NalFuInRtp) :
    getPalyloadType (b0 :: b1 :: b2 :: rest) =
      some (nalType ((b0 / 2) % 64) Flags.none) := by
  simp [getPalyloadType, h48, h49]

/-- Replay (`PushTo`) appends exactly the present parameter-set packets (VPS, SPS,
PPS order) and then, when GOP caching is enabled, the GOP buffer, and
returns the sum of the sizes of exactly those packets. -/
lemma PushTo_spec (c : HevcCache) (q : List Packet) :
    PushTo c q =
      (q ++ (c.vps.toList ++ c.sps.toList ++ c.pps.toList
          ++ if c.cacheGop then c.gop else []),
       ((c.vps.toList ++ c.sps.toList ++ c.pps.toList
          ++ if c.cacheGop then c.gop else []).map Packet.size).sum) := by
  rcases c with ⟨cg, gop, vps, sps, pps⟩
  rcases vps with _ | pv <;> rcases sps with _ | ps <;> rcases pps with _ | pp <;>
    rcases cg <;>
      simp [PushTo, Nat.add_comm, Nat.add_assoc, Nat.add_left_comm]

/-! ### Claim theorems -/

/-- Claim C3: Replay pushes, in this exact order, the cached VPS, SPS and
PPS packets when present, then (only with GOP caching enabled) the GOP
buffer in arrival order; absent slots and an empty buffer contribute
nothing, and the returned integer is the sum of the sizes of exactly the
pushed packets. -/
theorem C3_replay_order_and_sum (c : HevcCache) (q : List Packet) :
    PushTo c q =
      (q ++ (c.vps.toList ++ c.sps.toList ++ c.pps.toList
          ++ if c.cacheGop then c.gop else []),
       ((c.vps.toList ++ c.sps.toList ++ c.pps.toList
          ++ if c.cacheGop then c.gop else []).map Packet.size).sum) :=
  PushTo_spec c q

/-- Claim C6: for a single-unit video payload (at least 3 bytes), a VPS,
SPS or PPS unit type stores the packet in exactly the corresponding slot
and Ingest returns false; a type in the closed keyframe range BLA..CRA
makes Ingest return true. -/
theorem C6_single_unit_classification (c : HevcCache) (p : Packet)
    (b0 b1 b2 : Nat) (rest : List Nat)
    (hch : p.channel = ChannelVideo)
    (hpl : p.payload = b0 :: b1 :: b2 :: rest) :
    ((b0 / 2) % 64 = NalVps →
      CachePack c p = some ({ c with vps := some p }, false)) ∧
    ((b0 / 2) % 64 = NalSps →
      CachePack c p = some ({ c with sps := some p }, false)) ∧
    ((b0 / 2) % 64 = NalPps →
      CachePack c p = some ({ c with pps := some p }, false)) ∧
    (NalBlaWLp ≤ (b0 / 2) % 64 → (b0 / 2) % 64 ≤ NalCraNut →
      CachePack c p =
        some ((if c.cacheGop then { c with gop := [p] } else c), true)) := by
  refine ⟨fun ht => ?_, fun ht => ?_, fun ht => ?_, fun ht1 ht2 => ?_⟩
  · rw [CachePack, if_neg (by simp [hch]), hpl,
      getPalyloadType_default _ _ _ _ (by rw [ht]; decide) (by rw [ht]; decide), ht]
    simp [nalType, Flags.none, NalVps, NalBlaWLp, NalCraNut]
  · rw [CachePack, if_neg (by simp [hch]), hpl,
      getPalyloadType_default _ _ _ _ (by rw [ht]; decide) (by rw [ht]; decide), ht]
    simp [nalType, Flags.none, NalVps, NalSps, NalBlaWLp, NalCraNut]
  · rw [CachePack, if_neg (by simp [hch]), hpl,
      getPalyloadType_default _ _ _ _ (by rw [ht]; decide) (by rw [ht]; decide), ht]
    simp [nalType, Flags.none, NalVps, NalSps, NalPps, NalBlaWLp, NalCraNut]
  · rw [CachePack, if_neg (by simp [hch]), hpl,
      getPalyloadType_default _ _ _ _
        (by rw [NalBlaWLp] at ht1; rw [NalCraNut] at ht2; rw [NalStapInRtp]; omega)
        (by rw [NalBlaWLp] at ht1; rw [NalCraNut] at ht2; rw [NalFuInRtp]; omega)]
    rw [nalType, if_pos ⟨ht1, ht2⟩]
    by_cases hc : c.cacheGop <;> simp [hc, Flags.none]

/-- Claim C6 witness: a concrete SPS single-unit packet is stored in the
SPS slot with Ingest returning false, and a concrete keyframe-type packet
makes Ingest return true. -/
theorem C6_single_unit_classification_witness :
    ((⟨ChannelVideo, [66, 0, 0], 3⟩ : Packet).channel = ChannelVideo ∧
     (⟨ChannelVideo, [66, 0, 0], 3⟩ : Packet).payload = 66 :: 0 :: 0 :: [] ∧
     (66 / 2) % 64 = NalSps ∧
     CachePack (NewHevcCache true) ⟨ChannelVideo, [66, 0, 0], 3⟩ =
       some ({ NewHevcCache true with sps := some ⟨ChannelVideo, [66, 0, 0], 3⟩ },
         false)) ∧
    (NalBlaWLp ≤ (38 / 2) % 64 ∧ (38 / 2) % 64 ≤ NalCraNut ∧
     CachePack (NewHevcCache true) ⟨ChannelVideo, [38, 0, 0], 3⟩ =
       some ({ NewHevcCache true with gop := [⟨ChannelVideo, [38, 0, 0], 3⟩] },
         true)) := by
  constructor
  · exact ⟨rfl, rfl, by decide,
      (C6_single_unit_classification (NewHevcCache true) _ 66 0 0 [] rfl
        rfl).2.1 (by decide)⟩
  · refine ⟨by decide, by decide, ?_⟩
    have h := (C6_single_unit_classification (NewHevcCache true)
      ⟨ChannelVideo, [38, 0, 0], 3⟩ 38 0 0 [] rfl rfl).2.2.2 (by decide) (by decide)
    simpa using h

/-- Claim C2: with GOP caching enabled, a video packet carrying no
parameter-set flag drives the GOP buffer as follows: a keyframe empties
the buffer and becomes its sole element; a non-keyframe is appended only
when the buffer is non-empty and is dropped when it is empty; Ingest
returns the keyframe flag. -/
theorem C2_gop_lifecycle (c : HevcCache) (p : Packet) (f : Flags)
    (hcg : c.cacheGop = true)
    (hch : p.channel = ChannelVideo)
    (hf : getPalyloadType p.payload = some f)
    (hv : f.vps = false) (hs : f.sps = false) (hp : f.pps = false) :
    CachePack c p =
      some ({ c with gop :=
        if f.islice then [p]
        else if c.gop.length > 0 then c.gop ++ [p]
        else c.gop }, f.islice) := by
  rw [CachePack, if_neg (by simp [hch]), hf]
  simp only [hv, hs, hp, hcg, Bool.false_eq_true, if_false, if_true]
  by_cases hi : f.islice = true
  · simp [hi]
  · rw [Bool.not_eq_true] at hi
    simp only [hi, Bool.false_eq_true, if_false]
    by_cases hl : c.gop.length > 0
    · simp [hl]
    · rw [if_neg hl, if_neg hl, ← hcg]

/-- Claim C2 witness: from a fresh cache with GOP caching on, a concrete
non-keyframe video packet is dropped from the (empty) buffer. -/
theorem C2_gop_lifecycle_witness :
    (NewHevcCache true).cacheGop = true ∧
    (⟨ChannelVideo, [2, 0, 0], 3⟩ : Packet).channel = ChannelVideo ∧
    getPalyloadType [2, 0, 0] = some ⟨false, false, false, false⟩ ∧
    CachePack (NewHevcCache true) ⟨ChannelVideo, [2, 0, 0], 3⟩ =
      some ({ NewHevcCache true with gop :=
        if (false : Bool) then [⟨ChannelVideo, [2, 0, 0], 3⟩]
        else if (NewHevcCache true).gop.length > 0 then
          (NewHevcCache true).gop ++ [⟨ChannelVideo, [2, 0, 0], 3⟩]
        else (NewHevcCache true).gop }, false) :=
  ⟨rfl, rfl, by decide,
    C2_gop_lifecycle (NewHevcCache true) ⟨ChannelVideo, [2, 0, 0], 3⟩
      ⟨false, false, false, false⟩ rfl rfl (by decide) rfl rfl rfl⟩

end HevcCacheSpec

namespace HevcCacheSpec

/-- A video packet classified with all four flags false changes no
parameter-set slot, returns false, and touches the GOP buffer only via
the non-keyframe append rule (appended when caching is on and a GOP is in
progress). -/
lemma CachePack_noflags (c : HevcCache) (p : Packet)
    (hch : p.channel = ChannelVideo)
    (hg : getPalyloadType p.payload = some Flags.none) :
    CachePack c p =
      some ({ c with gop :=
        if c.cacheGop then
          if c.gop.length > 0 then c.gop ++ [p] else c.gop
        else c.gop }, false) := by
  rw [CachePack, if_neg (by simp [hch]), hg]
  rcases c with ⟨cg, gop, cvps, csps, cpps⟩
  rcases cg <;> simp [Flags.none]
  by_cases hl : gop.length > 0 <;> simp [hl]

/-- Ingest (`CachePack`) never writes the GOP buffer when GOP caching is disabled. -/
lemma CachePack_gop_disabled (c : HevcCache) (p : Packet) (s : HevcCache × Bool)
    (hc : c.cacheGop = false) (h : CachePack c p = some s) :
    s.1.gop = c.gop := by
  rw [CachePack] at h
  split at h
  · cases h; rfl
  · rcases hg : getPalyloadType p.payload with _ | f
    · rw [hg] at h; cases h
    · simp only [hg] at h
      rw [hc] at h
      simp only [Bool.false_eq_true, if_false] at h
      split_ifs at h <;> (cases h; rfl)

/-- Claim C7: a video fragmentation-unit payload whose start-fragment
flag (bit 7 of the FU header byte) is unset sets no classification flag,
updates no parameter-set slot, returns false, and touches the GOP buffer
only via the keyframe-independent append rule, whatever the FU type
field. -/
theorem C7_fu_nonstart (c : HevcCache) (p : Packet) (b0 b1 b2 : Nat)
    (rest : List Nat)
    (hch : p.channel = ChannelVideo)
    (hpl : p.payload = b0 :: b1 :: b2 :: rest)
    (hfu : (b0 / 2) % 64 = NalFuInRtp)
    (hstart : (b2 / 128) % 2 ≠ 1) :
    getPalyloadType p.payload = some Flags.none ∧
    CachePack c p =
      some ({ c with gop :=
        if c.cacheGop then
          if c.gop.length > 0 then c.gop ++ [p] else c.gop
        else c.gop }, false) := by
  have hg : getPalyloadType p.payload = some Flags.none := by
    rw [hpl]
    simp [getPalyloadType, hfu, hstart, NalFuInRtp, NalStapInRtp]
  exact ⟨hg, CachePack_noflags c p hch hg⟩

/-- Claim C7 witness: a concrete non-start FU packet carrying a keyframe
type in its FU header classifies as nothing and is merely dropped (fresh
cache, empty buffer). -/
theorem C7_fu_nonstart_witness :
    (98 / 2) % 64 = NalFuInRtp ∧ (19 / 128) % 2 ≠ 1 ∧
    getPalyloadType [98, 0, 19] = some Flags.none ∧
    CachePack (NewHevcCache true) ⟨ChannelVideo, [98, 0, 19], 3⟩ =
      some ({ NewHevcCache true with gop :=
        if (NewHevcCache true).cacheGop then
          if (NewHevcCache true).gop.length > 0 then
            (NewHevcCache true).gop ++ [⟨ChannelVideo, [98, 0, 19], 3⟩]
          else (NewHevcCache true).gop
        else (NewHevcCache true).gop }, false) := by
  refine ⟨by decide, by decide, ?_, ?_⟩
  · exact (C7_fu_nonstart (NewHevcCache true) ⟨ChannelVideo, [98, 0, 19], 3⟩
      98 0 19 [] rfl rfl (by decide) (by decide)).1
  · exact (C7_fu_nonstart (NewHevcCache true) ⟨ChannelVideo, [98, 0, 19], 3⟩
      98 0 19 [] rfl rfl (by decide) (by decide)).2

/-- Claim C9 (amended): a video payload shorter than 3 bytes classifies
as nothing (all four flags false) and returns false without failing, and
no parameter-set slot changes; the GOP buffer is unchanged except that,
with GOP caching enabled and a GOP in progress, the packet is still
appended under the non-keyframe append rule. -/
theorem C9_short_payload (c : HevcCache) (p : Packet)
    (hch : p.channel = ChannelVideo)
    (hlen : p.payload.length < 3) :
    getPalyloadType p.payload = some Flags.none ∧
    CachePack c p =
      some ({ c with gop :=
        if c.cacheGop then
          if c.gop.length > 0 then c.gop ++ [p] else c.gop
        else c.gop }, false) := by
  have hg : getPalyloadType p.payload = some Flags.none := by
    rcases hP : p.payload with _ | ⟨a, _ | ⟨b, _ | ⟨d, t⟩⟩⟩
    · rfl
    · rfl
    · rfl
    · rw [hP] at hlen
      exact absurd hlen (by simp)
  exact ⟨hg, CachePack_noflags c p hch hg⟩

/-- Claim C9 witness (for the amended claim): a concrete 1-byte video
payload on a fresh cache classifies as nothing and leaves the state
unchanged apart from the (here inert) append rule. -/
theorem C9_short_payload_witness :
    (⟨ChannelVideo, [7], 1⟩ : Packet).payload.length < 3 ∧
    (getPalyloadType [7] = some Flags.none ∧
     CachePack (NewHevcCache true) ⟨ChannelVideo, [7], 1⟩ =
       some ({ NewHevcCache true with gop :=
         if (NewHevcCache true).cacheGop then
           if (NewHevcCache true).gop.length > 0 then
             (NewHevcCache true).gop ++ [⟨ChannelVideo, [7], 1⟩]
           else (NewHevcCache true).gop
         else (NewHevcCache true).gop }, false)) :=
  ⟨by decide,
    C9_short_payload (NewHevcCache true) ⟨ChannelVideo, [7], 1⟩ rfl (by decide)⟩

/-- Claim C9 counterexample: a 1-byte video payload ingested while a GOP
is in progress does change cached state — it is appended to the GOP
buffer — so "changes no cached state" fails as stated. -/
theorem C9_counterexample :
    ((⟨ChannelVideo, [7], 1⟩ : Packet).payload.length < 3) ∧
    CachePack
      ({ cacheGop := true, gop := [⟨ChannelVideo, [38, 0, 0], 3⟩],
         vps := Option.none, sps := Option.none,
         pps := Option.none } : HevcCache)
      ⟨ChannelVideo, [7], 1⟩ =
      some ({ cacheGop := true,
              gop := [⟨ChannelVideo, [38, 0, 0], 3⟩, ⟨ChannelVideo, [7], 1⟩],
              vps := Option.none, sps := Option.none,
              pps := Option.none }, false) ∧
    ({ cacheGop := true,
       gop := [⟨ChannelVideo, [38, 0, 0], 3⟩, ⟨ChannelVideo, [7], 1⟩],
       vps := Option.none, sps := Option.none,
       pps := Option.none } : HevcCache) ≠
      ({ cacheGop := true, gop := [⟨ChannelVideo, [38, 0, 0], 3⟩],
         vps := Option.none, sps := Option.none,
         pps := Option.none } : HevcCache) := by
  decide

/-- Claim C10: a video packet classified with more than one parameter-set
flag updates only the single highest-precedence slot (VPS before SPS
before PPS), leaves the others unchanged, and returns false. -/
theorem C10_param_precedence (c : HevcCache) (p : Packet) (f : Flags)
    (hch : p.channel = ChannelVideo)
    (hf : getPalyloadType p.payload = some f)
    (hmulti : (f.vps = true ∧ f.sps = true) ∨ (f.vps = true ∧ f.pps = true) ∨
      (f.sps = true ∧ f.pps = true)) :
    CachePack c p =
      some ((if f.vps = true then { c with vps := some p }
             else { c with sps := some p }), false) := by
  rw [CachePack, if_neg (by simp [hch]), hf]
  by_cases hv : f.vps = true
  · simp [hv]
  · have hs : f.sps = true := by
      rcases hmulti with ⟨h1, _⟩ | ⟨h1, _⟩ | ⟨h1, _⟩
      · exact absurd h1 hv
      · exact absurd h1 hv
      · exact h1
    simp [hv, hs]

/-- Claim C10 witness: an aggregation of a VPS unit then an SPS unit
classifies with both flags, and only the VPS slot is updated. -/
theorem C10_param_precedence_witness :
    CachePack (NewHevcCache true) ⟨ChannelVideo, [96, 0, 0, 1, 64, 0, 1, 66], 8⟩ =
      some ({ NewHevcCache true with
              vps := some ⟨ChannelVideo, [96, 0, 0, 1, 64, 0, 1, 66], 8⟩ },
        false) := by
  have h := C10_param_precedence (NewHevcCache true)
    ⟨ChannelVideo, [96, 0, 0, 1, 64, 0, 1, 66], 8⟩ ⟨true, true, false, false⟩ rfl
    (by simp [getPalyloadType, apScan, nalType, NalStapInRtp, NalFuInRtp,
      NalBlaWLp, NalCraNut, NalVps, NalSps, NalPps, Flags.none])
    (Or.inl ⟨rfl, rfl⟩)
  simpa using h

/-- Claim C1 (code behavior at the failing input): an aggregation payload
whose embedded unit is announced with a valid in-bounds length field but
whose bytes are truncated makes the classification scan read past the end
of the payload — a Go index-out-of-range panic, modelled as `Option.none`
— so Ingest does fail on this malformed aggregation payload. -/
theorem C1_truncated_aggregation_panics :
    getPalyloadType [96, 0, 0, 1] = Option.none ∧
    CachePack (NewHevcCache true) ⟨ChannelVideo, [96, 0, 0, 1], 4⟩ =
      Option.none := by
  constructor
  · simp [getPalyloadType, apScan, NalStapInRtp, NalFuInRtp, Flags.none]
  · simp [CachePack, getPalyloadType, apScan, ChannelVideo, NalStapInRtp,
      NalFuInRtp, Flags.none]

/-- Claim C8: with GOP caching disabled, a keyframe-classified video
packet still makes Ingest return true while the state is unchanged; no
ingest ever writes the GOP buffer; and Replay pushes only the cached
parameter-set packets, never GOP content. -/
theorem C8_gop_disabled (c : HevcCache) (p : Packet) (q : List Packet)
    (f : Flags)
    (hc : c.cacheGop = false)
    (hch : p.channel = ChannelVideo)
    (hf : getPalyloadType p.payload = some f)
    (hkf : f = ⟨false, false, false, true⟩) :
    CachePack c p = some (c, true) ∧
    (∀ p' s, CachePack c p' = some s → s.1.gop = c.gop) ∧
    (PushTo c q).1 = q ++ (c.vps.toList ++ c.sps.toList ++ c.pps.toList) := by
  refine ⟨?_, fun p' s h => CachePack_gop_disabled c p' s hc h, ?_⟩
  · rw [CachePack, if_neg (by simp [hch]), hf, hkf]
    simp [hc]
  · rw [PushTo_spec]
    simp [hc]

/-- Claim C8 witness: with GOP caching off, a concrete keyframe packet
returns true and leaves the fresh cache unchanged, and Replay pushes
nothing. -/
theorem C8_gop_disabled_witness :
    (NewHevcCache false).cacheGop = false ∧
    CachePack (NewHevcCache false) ⟨ChannelVideo, [38, 0, 0], 3⟩ =
      some (NewHevcCache false, true) ∧
    (PushTo (NewHevcCache false) []).1 =
      [] ++ ((NewHevcCache false).vps.toList ++ (NewHevcCache false).sps.toList
        ++ (NewHevcCache false).pps.toList) := by
  refine ⟨rfl, ?_, ?_⟩
  · exact (C8_gop_disabled (NewHevcCache false) ⟨ChannelVideo, [38, 0, 0], 3⟩ []
      ⟨false, false, false, true⟩ rfl rfl (by decide) rfl).1
  · exact (C8_gop_disabled (NewHevcCache false) ⟨ChannelVideo, [38, 0, 0], 3⟩ []
      ⟨false, false, false, true⟩ rfl rfl (by decide) rfl).2.2

end HevcCacheSpec

namespace HevcCacheSpec

/-! ### Aggregation payloads built from explicit unit lists -/

/-- One embedded unit as packed into an aggregation payload: a 2-byte
big-endian length prefix followed by the unit's bytes. -/
def encUnit (u : List Nat) : List Nat :=
  u.length / 256 :: u.length % 256 :: u

/-- An aggregation payload: a 2-byte aggregation header whose first byte
carries NAL type 48 (`NalStapInRtp`) in bits 1–6, followed by the
back-to-back length-prefixed units. -/
def mkAggPayload (units : List (List Nat)) : List Nat :=
  96 :: 0 :: (units.map encUnit).flatten

/-- NAL type of an embedded unit: bits 1–6 of its first byte. -/
def unitType (u : List Nat) : Nat := (u.headD 0 / 2) % 64

/-- Reading at `pre.length + i` past a prefix reads the suffix at `i`. -/
lemma getElem?_append_offset {α : Type} (pre l : List α) (i : Nat) :
    (pre ++ l)[pre.length + i]? = l[i]? := by
  rw [List.getElem?_append_right (Nat.le_add_right _ _)]
  simp

/-- One unfolding step of the aggregation scan when all three header
reads are in bounds and the length is non-zero. -/
lemma apScan_step (payload : List Nat) (off : Nat) (f : Flags)
    (hi lo tb : Nat)
    (h0 : payload[off]? = some hi) (h1 : payload[off+1]? = some lo)
    (hsz : 1 ≤ hi * 256 + lo) (h2 : payload[off+2]? = some tb) :
    apScan payload off f =
      if off + 2 + (hi * 256 + lo) ≥ payload.length then
        some (nalType ((tb / 2) % 64) f)
      else apScan payload (off + 2 + (hi * 256 + lo))
        (nalType ((tb / 2) % 64) f) := by
  rw [apScan]
  simp only [h0, h1, h2]
  rw [if_neg (by omega)]

/-- The aggregation scan over a well-formed packed unit list classifies
exactly the units' types, folded left to right. -/
lemma apScan_mkAgg (units : List (List Nat)) (pre : List Nat) (f : Flags)
    (hwf : ∀ u ∈ units, u ≠ [] ∧ u.length < 65536)
    (hne : units ≠ []) :
    apScan (pre ++ (units.map encUnit).flatten) pre.length f =
      some (units.foldl (fun g u => nalType (unitType u) g) f) := by
  induction units generalizing pre f with
  | nil => exact absurd rfl hne
  | cons u us ih =>
    obtain ⟨hu0, hu1⟩ := hwf u (by simp)
    rcases hu : u with _ | ⟨uh, ut⟩
    · exact absurd hu hu0
    rw [← hu]
    have henc : encUnit u ++ (us.map encUnit).flatten =
        u.length / 256 :: u.length % 256 :: (u ++ (us.map encUnit).flatten) := by
      simp [encUnit]
    have hjoin : ((u :: us).map encUnit).flatten =
        encUnit u ++ (us.map encUnit).flatten := by simp
    have hlen1 : 1 ≤ u.length := by rw [hu]; simp
    have hsz : (u.length / 256) * 256 + u.length % 256 = u.length := by omega
    have h0 : (pre ++ ((u :: us).map encUnit).flatten)[pre.length]? =
        some (u.length / 256) := by
      rw [hjoin, henc]
      have := getElem?_append_offset pre
        (u.length / 256 :: u.length % 256 :: (u ++ (us.map encUnit).flatten)) 0
      simpa using this
    have h1 : (pre ++ ((u :: us).map encUnit).flatten)[pre.length + 1]? =
        some (u.length % 256) := by
      rw [hjoin, henc]
      have := getElem?_append_offset pre
        (u.length / 256 :: u.length % 256 :: (u ++ (us.map encUnit).flatten)) 1
      simpa using this
    have h2 : (pre ++ ((u :: us).map encUnit).flatten)[pre.length + 2]? =
        some uh := by
      rw [hjoin, henc]
      have := getElem?_append_offset pre
        (u.length / 256 :: u.length % 256 :: (u ++ (us.map encUnit).flatten)) 2
      rw [this]
      rw [hu]
      simp
    have htb : (uh / 2) % 64 = unitType u := by rw [hu]; rfl
    rw [apScan_step _ _ _ _ _ _ h0 h1 (by omega) h2, hsz, htb]
    have hplen : (pre ++ ((u :: us).map encUnit).flatten).length =
        pre.length + 2 + u.length + ((us.map encUnit).flatten).length := by
      rw [hjoin, henc]
      simp
      omega
    rcases us with _ | ⟨v, vs⟩
    · rw [if_pos (by rw [hplen]; simp)]
      simp
    · have hvlen : 0 < ((v :: vs).map encUnit).flatten.length := by
        have : encUnit v ++ ((vs.map encUnit).flatten) =
            ((v :: vs).map encUnit).flatten := by simp
        rw [← this]
        simp [encUnit]
      rw [if_neg (by rw [hplen]; omega)]
      have hpre2 : pre.length + 2 + u.length = (pre ++ encUnit u).length := by
        simp [encUnit]
        omega
      rw [hpre2]
      have hassoc : pre ++ ((u :: (v :: vs)).map encUnit).flatten =
          (pre ++ encUnit u) ++ ((v :: vs).map encUnit).flatten := by
        simp
      rw [hassoc]
      rw [ih (pre ++ encUnit u) (nalType (unitType u) f)
        (fun w hw => hwf w (List.mem_cons_of_mem u hw)) (by simp)]
      simp

end HevcCacheSpec

namespace HevcCacheSpec

/-- Effect of `nalType` on the `vps` flag: set exactly on the VPS code. -/
lemma nalType_vps (t : Nat) (g : Flags) :
    (nalType t g).vps = (g.vps || decide (t = NalVps)) := by
  by_cases hv : t = NalVps
  · subst hv
    simp [nalType, NalVps, NalBlaWLp, NalCraNut]
  · simp only [hv, decide_False, Bool.or_false]
    rw [nalType]
    split_ifs <;> simp_all

/-- Effect of `nalType` on the `sps` flag: set exactly on the SPS code. -/
lemma nalType_sps (t : Nat) (g : Flags) :
    (nalType t g).sps = (g.sps || decide (t = NalSps)) := by
  by_cases hv : t = NalSps
  · subst hv
    simp [nalType, NalSps, NalVps, NalBlaWLp, NalCraNut]
  · simp only [hv, decide_False, Bool.or_false]
    rw [nalType]
    split_ifs <;> simp_all

/-- Effect of `nalType` on the `pps` flag: set exactly on the PPS code. -/
lemma nalType_pps (t : Nat) (g : Flags) :
    (nalType t g).pps = (g.pps || decide (t = NalPps)) := by
  by_cases hv : t = NalPps
  · subst hv
    simp [nalType, NalPps, NalSps, NalVps, NalBlaWLp, NalCraNut]
  · simp only [hv, decide_False, Bool.or_false]
    rw [nalType]
    split_ifs <;> simp_all

/-- Folding the classifier over a unit list: the `vps` flag is set iff
some unit has the VPS type. -/
lemma foldl_nalType_vps (units : List (List Nat)) (f : Flags) :
    (units.foldl (fun g u => nalType (unitType u) g) f).vps =
      (f.vps || units.any fun u => decide (unitType u = NalVps)) := by
  induction units generalizing f with
  | nil => simp
  | cons u us ih => simp [ih, nalType_vps, Bool.or_assoc]

/-- Folding the classifier over a unit list: the `sps` flag is set iff
some unit has the SPS type. -/
lemma foldl_nalType_sps (units : List (List Nat)) (f : Flags) :
    (units.foldl (fun g u => nalType (unitType u) g) f).sps =
      (f.sps || units.any fun u => decide (unitType u = NalSps)) := by
  induction units generalizing f with
  | nil => simp
  | cons u us ih => simp [ih, nalType_sps, Bool.or_assoc]

/-- A payload opening with the aggregation header byte (NAL type 48 in
bits 1–6) is classified by the aggregation scan from offset 2. -/
lemma getPalyloadType_agg_header (x : Nat) (rest : List Nat) :
    getPalyloadType (96 :: 0 :: x :: rest) =
      apScan (96 :: 0 :: x :: rest) 2 Flags.none := by
  simp [getPalyloadType, NalStapInRtp, NalFuInRtp]

/-- Classification of a whole well-formed aggregation payload: the union
(left fold) of the classifications of its embedded units. -/
lemma getPalyloadType_mkAgg (units : List (List Nat))
    (hwf : ∀ u ∈ units, u ≠ [] ∧ u.length < 65536) (hne : units ≠ []) :
    getPalyloadType (mkAggPayload units) =
      some (units.foldl (fun g u => nalType (unitType u) g) Flags.none) := by
  rcases units with _ | ⟨u, us⟩
  · exact absurd rfl hne
  · have hshape : mkAggPayload (u :: us) =
        96 :: 0 :: (u.length / 256) :: ((u.length % 256) :: u
          ++ (us.map encUnit).flatten) := by
      simp [mkAggPayload, encUnit]
    have hpre : mkAggPayload (u :: us) =
        [96, 0] ++ ((u :: us).map encUnit).flatten := by
      simp [mkAggPayload]
    rw [hshape, getPalyloadType_agg_header, ← hshape, hpre,
      show (2 : Nat) = ([96, 0] : List Nat).length from rfl]
    exact apScan_mkAgg (u :: us) [96, 0] Flags.none hwf (by simp)

/-- Claim C5 counterexample: an aggregation payload whose embedded units
are a VPS unit, an SPS unit and a keyframe-class slice unit does contain
both an SPS unit and a keyframe unit, yet Ingest stores the packet in the
VPS slot and leaves the SPS slot empty — the claim's unconditional "stores
in the SPS slot" fails. -/
theorem C5_counterexample :
    (∃ u ∈ [[64], [66], [38]], unitType u = NalSps) ∧
    (∃ u ∈ [[64], [66], [38]],
      NalBlaWLp ≤ unitType u ∧ unitType u ≤ NalCraNut) ∧
    CachePack (NewHevcCache true)
      ⟨ChannelVideo, mkAggPayload [[64], [66], [38]], 11⟩ =
      some ({ NewHevcCache true with
          vps := some ⟨ChannelVideo, mkAggPayload [[64], [66], [38]], 11⟩ },
        false) ∧
    ({ NewHevcCache true with
        vps := some ⟨ChannelVideo, mkAggPayload [[64], [66], [38]], 11⟩ }
        : HevcCache).sps = Option.none := by
  refine ⟨by decide, by decide, ?_, rfl⟩
  simp [CachePack, getPalyloadType, mkAggPayload, encUnit, apScan, nalType,
    ChannelVideo, NalStapInRtp, NalFuInRtp, NalBlaWLp, NalCraNut, NalVps,
    NalSps, NalPps, Flags.none]

/-- Claim C5 (amended): for a video aggregation payload whose well-formed
embedded units include an SPS unit and a keyframe-class slice unit but no
VPS unit (VPS would take precedence), Ingest stores the packet in the SPS
slot, does not touch the GOP buffer, and returns false — the keyframe
flag of that call is discarded. -/
theorem C5_agg_sps_keyframe (c : HevcCache) (p : Packet)
    (units : List (List Nat))
    (hch : p.channel = ChannelVideo)
    (hpl : p.payload = mkAggPayload units)
    (hwf : ∀ u ∈ units, u ≠ [] ∧ u.length < 65536)
    (hsps : ∃ u ∈ units, unitType u = NalSps)
    (_hkf : ∃ u ∈ units,
      NalBlaWLp ≤ unitType u ∧ unitType u ≤ NalCraNut)
    (hnovps : ∀ u ∈ units, unitType u ≠ NalVps) :
    CachePack c p = some ({ c with sps := some p }, false) := by
  have hne : units ≠ [] := by
    rcases hsps with ⟨u, hu, _⟩
    intro h
    rw [h] at hu
    simp at hu
  have hF := getPalyloadType_mkAgg units hwf hne
  have hv : (units.foldl (fun g u => nalType (unitType u) g) Flags.none).vps
      = false := by
    rw [foldl_nalType_vps]
    simp [Flags.none]
    intro u hu
    exact hnovps u hu
  have hs : (units.foldl (fun g u => nalType (unitType u) g) Flags.none).sps
      = true := by
    rw [foldl_nalType_sps]
    rcases hsps with ⟨u, hu, ht⟩
    simp [Flags.none]
    exact ⟨u, hu, ht⟩
  rw [CachePack, if_neg (by simp [hch]), hpl, hF]
  simp [hv, hs]

/-- Claim C5 witness (for the amended claim): a concrete aggregation of an
SPS unit then a keyframe-slice unit is stored in the SPS slot with Ingest
returning false. -/
theorem C5_agg_sps_keyframe_witness :
    CachePack (NewHevcCache true) ⟨ChannelVideo, mkAggPayload [[66], [38]], 10⟩ =
      some ({ NewHevcCache true with
          sps := some ⟨ChannelVideo, mkAggPayload [[66], [38]], 10⟩ }, false) :=
  C5_agg_sps_keyframe (NewHevcCache true)
    ⟨ChannelVideo, mkAggPayload [[66], [38]], 10⟩ [[66], [38]] rfl rfl
    (by decide) ⟨[66], by simp, by decide⟩ ⟨[38], by simp, by decide, by decide⟩
    (by decide)

end HevcCacheSpec

namespace HevcCacheSpec

/-! ### Reachable-state invariant machinery -/

/-- A packet that takes `CachePack`'s keyframe branch: video channel and
classification exactly `⟨false, false, false, true⟩` (keyframe, no
parameter-set flag). -/
def keyframePack (p : Packet) : Bool :=
  p.channel == ChannelVideo &&
    getPalyloadType p.payload == some ⟨false, false, false, true⟩

/-- A packet subject to `CachePack`'s non-keyframe GOP append rule: video
channel, classification all-false. -/
def gopAppendPack (p : Packet) : Bool :=
  p.channel == ChannelVideo &&
    getPalyloadType p.payload == some ⟨false, false, false, false⟩

/-- A step that neither clears the GOP buffer nor starts a new GOP. -/
def gopQuiet (s : Step) : Prop :=
  match s with
  | Step.ingest p => keyframePack p = false
  | Step.reset => False

/-- The packets a step list appends to an in-progress GOP. -/
def gopTail (post : List Step) : List Packet :=
  post.filterMap fun s =>
    match s with
    | Step.ingest p => if gopAppendPack p then some p else Option.none
    | Step.reset => Option.none

lemma keyframePack_eq (p : Packet) :
    keyframePack p = true ↔
      p.channel = ChannelVideo ∧
        getPalyloadType p.payload = some ⟨false, false, false, true⟩ := by
  simp [keyframePack]

lemma gopAppendPack_eq (p : Packet) :
    gopAppendPack p = true ↔
      p.channel = ChannelVideo ∧
        getPalyloadType p.payload = some ⟨false, false, false, false⟩ := by
  simp [gopAppendPack]

lemma gopTail_append (l1 l2 : List Step) :
    gopTail (l1 ++ l2) = gopTail l1 ++ gopTail l2 := by
  simp [gopTail, List.filterMap_append]

lemma gopTail_ingest_skip (p : Packet) (h : gopAppendPack p = false) :
    gopTail [Step.ingest p] = [] := by
  simp [gopTail, h]

lemma gopTail_ingest_keep (p : Packet) (h : gopAppendPack p = true) :
    gopTail [Step.ingest p] = [p] := by
  simp [gopTail, h]

lemma runSteps_append (c : HevcCache) (l1 l2 : List Step) :
    runSteps c (l1 ++ l2) = (runSteps c l1).bind fun c' => runSteps c' l2 := by
  induction l1 generalizing c with
  | nil => simp [runSteps]
  | cons s l ih =>
    cases s with
    | ingest p =>
      rw [List.cons_append, runSteps, runSteps]
      rcases h : CachePack c p with _ | ⟨c1, r⟩
      · simp
      · simp [ih]
    | reset =>
      rw [List.cons_append, runSteps, runSteps, ih]

/-- Complete case analysis of one successful `CachePack` call. -/
lemma CachePack_cases (c : HevcCache) (p : Packet) (c' : HevcCache) (r : Bool)
    (h : CachePack c p = some (c', r)) :
    (p.channel ≠ ChannelVideo ∧ c' = c ∧ r = false) ∨
    (p.channel = ChannelVideo ∧ ∃ f, getPalyloadType p.payload = some f ∧
      ((f.vps = true ∧ c' = { c with vps := some p } ∧ r = false) ∨
       (f.vps = false ∧ f.sps = true ∧ c' = { c with sps := some p } ∧
         r = false) ∨
       (f.vps = false ∧ f.sps = false ∧ f.pps = true ∧
         c' = { c with pps := some p } ∧ r = false) ∨
       (f.vps = false ∧ f.sps = false ∧ f.pps = false ∧ r = f.islice ∧
         ((c.cacheGop = true ∧ f.islice = true ∧
            c' = { c with gop := [p] }) ∨
          (c.cacheGop = true ∧ f.islice = false ∧ c.gop.length > 0 ∧
            c' = { c with gop := c.gop ++ [p] }) ∨
          (c.cacheGop = true ∧ f.islice = false ∧ ¬ c.gop.length > 0 ∧
            c' = c) ∨
          (c.cacheGop = false ∧ c' = c))))) := by
  rw [CachePack] at h
  by_cases hch : p.channel = ChannelVideo
  · rw [if_neg (by simp [hch])] at h
    right
    rcases hg : getPalyloadType p.payload with _ | f
    · rw [hg] at h; cases h
    · simp only [hg] at h
      refine ⟨hch, f, rfl, ?_⟩
      split_ifs at h with h1 h2 h3 h4 h5 h6 <;>
        simp only [Option.some.injEq, Prod.mk.injEq] at h <;>
          obtain ⟨hc', hr⟩ := h
      · exact Or.inl ⟨h1, hc'.symm, hr.symm⟩
      · exact Or.inr (Or.inl ⟨by simp [h1], h2, hc'.symm, hr.symm⟩)
      · exact Or.inr (Or.inr (Or.inl
          ⟨by simp [h1], by simp [h2], h3, hc'.symm, hr.symm⟩))
      · exact Or.inr (Or.inr (Or.inr ⟨by simp [h1], by simp [h2], by simp [h3],
          hr.symm, Or.inl ⟨h4, h5, hc'.symm⟩⟩))
      · exact Or.inr (Or.inr (Or.inr ⟨by simp [h1], by simp [h2], by simp [h3],
          hr.symm, Or.inr (Or.inl ⟨h4, by simp [h5], h6, hc'.symm⟩)⟩))
      · exact Or.inr (Or.inr (Or.inr ⟨by simp [h1], by simp [h2], by simp [h3],
          hr.symm, Or.inr (Or.inr (Or.inl ⟨h4, by simp [h5], h6, hc'.symm⟩))⟩))
      · exact Or.inr (Or.inr (Or.inr ⟨by simp [h1], by simp [h2], by simp [h3],
          hr.symm, Or.inr (Or.inr (Or.inr ⟨by simp [h4], hc'.symm⟩))⟩))
  · rw [if_pos (by simp [hch])] at h
    simp only [Option.some.injEq, Prod.mk.injEq] at h
    exact Or.inl ⟨hch, h.1.symm, h.2.symm⟩

end HevcCacheSpec

namespace HevcCacheSpec

lemma keyframePack_false_of_flags (p : Packet) (f : Flags)
    (hg : getPalyloadType p.payload = some f)
    (hne : f ≠ ⟨false, false, false, true⟩) :
    keyframePack p = false := by
  rw [← Bool.not_eq_true, keyframePack_eq]
  rintro ⟨-, h2⟩
  rw [hg] at h2
  exact hne (Option.some.inj h2)

lemma gopAppendPack_false_of_flags (p : Packet) (f : Flags)
    (hg : getPalyloadType p.payload = some f)
    (hne : f ≠ ⟨false, false, false, false⟩) :
    gopAppendPack p = false := by
  rw [← Bool.not_eq_true, gopAppendPack_eq]
  rintro ⟨-, h2⟩
  rw [hg] at h2
  exact hne (Option.some.inj h2)

lemma keyframePack_false_of_channel (p : Packet)
    (hch : p.channel ≠ ChannelVideo) : keyframePack p = false := by
  simp [keyframePack, hch]

lemma gopAppendPack_false_of_channel (p : Packet)
    (hch : p.channel ≠ ChannelVideo) : gopAppendPack p = false := by
  simp [gopAppendPack, hch]

/-- Invariant of every cache state reachable by running `steps` from a
fresh cache: (1) with caching disabled the GOP buffer stays empty;
(2) the buffer is empty, or `steps` splits around the ingest of its head
`k` — a keyframe-branch packet — followed only by steps that neither reset
nor start a GOP, and the buffer is exactly `k` followed by the packets
those steps append, in arrival order; (3) every buffered packet is a video
packet classified with no parameter-set flag; (4–6) every parameter-set
slot holds a packet classified with that flag set. -/
def CacheInv (steps : List Step) (c : HevcCache) : Prop :=
  (c.cacheGop = false → c.gop = []) ∧
  (c.gop = [] ∨
    ∃ pre k post, steps = pre ++ Step.ingest k :: post ∧
      keyframePack k = true ∧ (∀ t ∈ post, gopQuiet t) ∧
      c.gop = k :: gopTail post) ∧
  (∀ q ∈ c.gop, q.channel = ChannelVideo ∧
    ∃ f, getPalyloadType q.payload = some f ∧
      f.vps = false ∧ f.sps = false ∧ f.pps = false) ∧
  (∀ q, c.vps = some q →
    ∃ f, getPalyloadType q.payload = some f ∧ f.vps = true) ∧
  (∀ q, c.sps = some q →
    ∃ f, getPalyloadType q.payload = some f ∧ f.sps = true) ∧
  (∀ q, c.pps = some q →
    ∃ f, getPalyloadType q.payload = some f ∧ f.pps = true)

/-- Extending the run by a step that neither resets nor starts nor
appends to a GOP preserves the buffer decomposition. -/
lemma gop_decomp_extend (steps : List Step) (c : HevcCache) (s : Step)
    (hdec : c.gop = [] ∨
      ∃ pre k post, steps = pre ++ Step.ingest k :: post ∧
        keyframePack k = true ∧ (∀ t ∈ post, gopQuiet t) ∧
        c.gop = k :: gopTail post)
    (hq : gopQuiet s) (hskip : gopTail [s] = []) :
    c.gop = [] ∨
      ∃ pre k post, steps ++ [s] = pre ++ Step.ingest k :: post ∧
        keyframePack k = true ∧ (∀ t ∈ post, gopQuiet t) ∧
        c.gop = k :: gopTail post := by
  rcases hdec with h | ⟨pre, k, post, hsteps, hk, hquiet, hgop⟩
  · exact Or.inl h
  · refine Or.inr ⟨pre, k, post ++ [s], by rw [hsteps]; simp, hk, ?_, ?_⟩
    · intro t ht
      rcases List.mem_append.mp ht with h1 | h1
      · exact hquiet t h1
      · rw [List.mem_singleton.mp h1]
        exact hq
    · rw [gopTail_append, hskip, List.append_nil]
      exact hgop

/-- A `Reset` re-establishes the invariant for the extended run. -/
lemma CacheInv_reset (steps : List Step) (c : HevcCache) :
    CacheInv (steps ++ [Step.reset]) (Reset c) := by
  refine ⟨fun _ => rfl, Or.inl rfl, ?_, ?_, ?_, ?_⟩
  · intro q hq
    simp [Reset] at hq
  · intro q hq
    simp [Reset] at hq
  · intro q hq
    simp [Reset] at hq
  · intro q hq
    simp [Reset] at hq

/-- A successful `CachePack` preserves the invariant for the extended
run. -/
lemma CacheInv_ingest (steps : List Step) (c c' : HevcCache) (p : Packet)
    (r : Bool) (hinv : CacheInv steps c) (h : CachePack c p = some (c', r)) :
    CacheInv (steps ++ [Step.ingest p]) c' := by
  obtain ⟨hdis, hdec, hmem, hv, hs, hp⟩ := hinv
  rcases CachePack_cases c p c' r h with ⟨hch, hc', -⟩ | ⟨hch, f, hg, hcase⟩
  · rw [hc']
    exact ⟨hdis,
      gop_decomp_extend steps c _ hdec
        (keyframePack_false_of_channel p hch)
        (gopTail_ingest_skip p (gopAppendPack_false_of_channel p hch)),
      hmem, hv, hs, hp⟩
  · rcases hcase with ⟨hfv, hc', -⟩ | ⟨hfv, hfs, hc', -⟩ |
      ⟨hfv, hfs, hfp, hc', -⟩ | ⟨hfv, hfs, hfp, hr, hsub⟩
    · -- VPS slot updated
      subst hc'
      refine ⟨hdis,
        gop_decomp_extend steps c _ hdec
          (keyframePack_false_of_flags p f hg (by rintro rfl; simp at hfv))
          (gopTail_ingest_skip p
            (gopAppendPack_false_of_flags p f hg (by rintro rfl; simp at hfv))),
        hmem, ?_, hs, hp⟩
      intro q hq
      obtain rfl := Option.some.inj hq
      exact ⟨f, hg, hfv⟩
    · -- SPS slot updated
      subst hc'
      refine ⟨hdis,
        gop_decomp_extend steps c _ hdec
          (keyframePack_false_of_flags p f hg (by rintro rfl; simp at hfs))
          (gopTail_ingest_skip p
            (gopAppendPack_false_of_flags p f hg (by rintro rfl; simp at hfs))),
        hmem, hv, ?_, hp⟩
      intro q hq
      obtain rfl := Option.some.inj hq
      exact ⟨f, hg, hfs⟩
    · -- PPS slot updated
      subst hc'
      refine ⟨hdis,
        gop_decomp_extend steps c _ hdec
          (keyframePack_false_of_flags p f hg (by rintro rfl; simp at hfp))
          (gopTail_ingest_skip p
            (gopAppendPack_false_of_flags p f hg (by rintro rfl; simp at hfp))),
        hmem, hv, hs, ?_⟩
      intro q hq
      obtain rfl := Option.some.inj hq
      exact ⟨f, hg, hfp⟩
    · -- GOP branch
      have hfall : f = ⟨false, false, false, f.islice⟩ := by
        cases f
        simp_all
      rcases hsub with ⟨hcg, hisl, hc'⟩ | ⟨hcg, hisl, hlen, hc'⟩ |
        ⟨hcg, hisl, hlen, hc'⟩ | ⟨hcg, hc'⟩
      · -- keyframe: buffer reset to [p]
        subst hc'
        have hkf : keyframePack p = true := by
          rw [keyframePack_eq]
          refine ⟨hch, ?_⟩
          rw [hg, hfall, hisl]
        refine ⟨fun habs => absurd habs (by simp [hcg]),
          Or.inr ⟨steps, p, [], by simp, hkf, by simp, by simp [gopTail]⟩,
          ?_, hv, hs, hp⟩
        intro q hq
        obtain rfl := List.mem_singleton.mp hq
        exact ⟨hch, f, hg, hfv, hfs, hfp⟩
      · -- non-keyframe appended to a non-empty buffer
        subst hc'
        have happ : gopAppendPack p = true := by
          rw [gopAppendPack_eq]
          refine ⟨hch, ?_⟩
          rw [hg, hfall, hisl]
        have hkf : keyframePack p = false :=
          keyframePack_false_of_flags p f hg
            (by rintro rfl; simp at hisl)
        rcases hdec with hnil | ⟨pre, k, post, hsteps, hk, hquiet, hgop⟩
        · rw [hnil] at hlen
          simp at hlen
        · refine ⟨fun habs => absurd habs (by simp [hcg]),
            Or.inr ⟨pre, k, post ++ [Step.ingest p], by rw [hsteps]; simp,
              hk, ?_, ?_⟩, ?_, hv, hs, hp⟩
          · intro t ht
            rcases List.mem_append.mp ht with h1 | h1
            · exact hquiet t h1
            · rw [List.mem_singleton.mp h1]
              exact hkf
          · rw [gopTail_append, gopTail_ingest_keep p happ]
            show c.gop ++ [p] = k :: (gopTail post ++ [p])
            rw [hgop]
            rfl
          · intro q hq
            rcases List.mem_append.mp hq with h1 | h1
            · exact hmem q h1
            · obtain rfl := List.mem_singleton.mp h1
              exact ⟨hch, f, hg, hfv, hfs, hfp⟩
      · -- non-keyframe with empty buffer: dropped
        rw [hc']
        exact ⟨hdis, Or.inl (by
          have : c.gop.length = 0 := by omega
          exact List.eq_nil_of_length_eq_zero this), hmem, hv, hs, hp⟩
      · -- GOP caching disabled: state unchanged
        rw [hc']
        exact ⟨hdis, Or.inl (hdis hcg), hmem, hv, hs, hp⟩

end HevcCacheSpec

namespace HevcCacheSpec

/-- Every state reachable from a fresh cache satisfies `CacheInv`. -/
lemma runSteps_inv (b : Bool) (steps : List Step) :
    ∀ c, runSteps (NewHevcCache b) steps = some c → CacheInv steps c := by
  induction steps using List.reverseRecOn with
  | nil =>
    intro c h
    obtain rfl := Option.some.inj h
    refine ⟨fun _ => rfl, Or.inl rfl, ?_, ?_, ?_, ?_⟩
    · intro q hq
      simp [NewHevcCache] at hq
    · intro q hq
      simp [NewHevcCache] at hq
    · intro q hq
      simp [NewHevcCache] at hq
    · intro q hq
      simp [NewHevcCache] at hq
  | append_singleton l s ih =>
    intro c h
    rw [runSteps_append] at h
    rcases hl : runSteps (NewHevcCache b) l with _ | c1
    · rw [hl] at h
      cases h
    · rw [hl] at h
      simp only [Option.some_bind] at h
      cases s with
      | ingest p =>
        rw [runSteps] at h
        rcases hcp : CachePack c1 p with _ | ⟨c2, r⟩
        · rw [hcp] at h
          cases h
        · rw [hcp] at h
          simp only [runSteps] at h
          obtain rfl := Option.some.inj h
          exact CacheInv_ingest l c1 c2 p r (ih c1 hl) hcp
      | reset =>
        rw [runSteps, runSteps] at h
        obtain rfl := Option.some.inj h
        exact CacheInv_reset l c1

/-- Claim C4: in every state reachable from a fresh cache by Ingest and
Reset calls, the GOP buffer is empty or consists of the most recently
ingested keyframe-branch packet followed, in arrival order, by exactly the
non-keyframe video packets appended since it (no reset and no keyframe
intervening); no packet classified with a parameter-set flag is in the
buffer, and no buffered packet sits in a parameter-set slot. -/
theorem C4_gop_invariant (b : Bool) (steps : List Step) (c : HevcCache)
    (hrun : runSteps (NewHevcCache b) steps = some c) :
    (c.gop = [] ∨
      ∃ pre k post, steps = pre ++ Step.ingest k :: post ∧
        keyframePack k = true ∧ (∀ t ∈ post, gopQuiet t) ∧
        c.gop = k :: gopTail post) ∧
    (∀ q ∈ c.gop, ∃ f, getPalyloadType q.payload = some f ∧
      f.vps = false ∧ f.sps = false ∧ f.pps = false) ∧
    (∀ q ∈ c.gop, c.vps ≠ some q ∧ c.sps ≠ some q ∧ c.pps ≠ some q) := by
  obtain ⟨hdis, hdec, hmem, hv, hs, hp⟩ := runSteps_inv b steps c hrun
  refine ⟨hdec, fun q hq => (hmem q hq).2, fun q hq => ?_⟩
  obtain ⟨-, f, hf, hfv, hfs, hfp⟩ := hmem q hq
  refine ⟨?_, ?_, ?_⟩ <;> intro habs
  · obtain ⟨g, hg, hgv⟩ := hv q habs
    rw [hf] at hg
    obtain rfl := Option.some.inj hg
    rw [hfv] at hgv
    cases hgv
  · obtain ⟨g, hg, hgs⟩ := hs q habs
    rw [hf] at hg
    obtain rfl := Option.some.inj hg
    rw [hfs] at hgs
    cases hgs
  · obtain ⟨g, hg, hgp⟩ := hp q habs
    rw [hf] at hg
    obtain rfl := Option.some.inj hg
    rw [hfp] at hgp
    cases hgp

/-- The cache state after ingesting one concrete keyframe packet into a
fresh cache with GOP caching enabled. -/
def c4state : HevcCache :=
  { cacheGop := true,
    gop := [⟨ChannelVideo, [38, 0, 0], 3⟩],
    vps := Option.none,
    sps := Option.none,
    pps := Option.none }

/-- Claim C4 witness: after ingesting one concrete keyframe packet into a
fresh cache, the invariant's conclusion holds for the resulting state. -/
theorem C4_gop_invariant_witness :
    runSteps (NewHevcCache true) [Step.ingest ⟨ChannelVideo, [38, 0, 0], 3⟩] =
      some c4state ∧
    ((c4state.gop = [] ∨
      ∃ pre k post,
        ([Step.ingest ⟨ChannelVideo, [38, 0, 0], 3⟩] : List Step) =
          pre ++ Step.ingest k :: post ∧
        keyframePack k = true ∧ (∀ t ∈ post, gopQuiet t) ∧
        c4state.gop = k :: gopTail post) ∧
    (∀ q ∈ c4state.gop, ∃ f, getPalyloadType q.payload = some f ∧
      f.vps = false ∧ f.sps = false ∧ f.pps = false) ∧
    (∀ q ∈ c4state.gop,
      c4state.vps ≠ some q ∧ c4state.sps ≠ some q ∧ c4state.pps ≠ some q)) :=
  ⟨by decide,
    C4_gop_invariant true [Step.ingest ⟨ChannelVideo, [38, 0, 0], 3⟩] c4state
      (by decide)⟩

end HevcCacheSpec
